import Mathlib

/-!
# Verification of the kondor pricing / payoff engine

Shallow embedding of the kondor option-payoff visualizer's numerical core:
the Black-Scholes pricing module, the payoff calculators (quote-currency and
underlying-currency), the range solver and breakeven extraction, the
theoretical max-profit/max-loss classifier, the chart range-extension policy,
and the position store's update operations.

Numeric domains: modules that use transcendental functions (`exp`, `log`,
`sqrt`, `π`) are embedded over `ℝ`; modules whose arithmetic is purely
rational (payoff in underlying units, classifier, range solver, breakevens,
store updates) are embedded over `ℚ` so that they stay executable and
concrete evaluations can be settled by `decide`.
-/

namespace Kondor

/-! ## Data model -/

/-- Option contract kind. -/
inductive OptionType
  | call
  | put
deriving DecidableEq, Repr

/-- Position direction. -/
inductive Direction
  | long
  | short
deriving DecidableEq, Repr

/-- Currency denomination. -/
inductive Denomination
  | usd
  | btc
deriving DecidableEq, Repr

/-- A single option position.  `expiryDate` stands in for the source's `Date`
as an epoch timestamp; `premiumBtc` is the optional underlying-currency
premium. -/
structure OptionPosition where
  id : String
  optionType : OptionType
  direction : Direction
  strike : ℚ
  premium : ℚ
  quantity : ℚ
  expiryDate : ℤ
  premiumBtc : Option ℚ
  btcPriceAtEntry : ℚ
  denominationAtEntry : Denomination
  enabled : Bool
deriving DecidableEq, Repr

/-- A sampled point of a payoff curve. -/
structure PayoffPoint where
  price : ℚ
  pnl : ℚ
deriving DecidableEq, Repr

/-- The `direction === 'long' ? 1 : -1` multiplier used throughout the
payoff module. -/
def directionMultiplier (direction : Direction) : ℚ :=
  match direction with
  | .long => 1
  | .short => -1

/-! ## PricingModel — Black-Scholes module -/

/-- Standard normal probability density function. -/
noncomputable def normalPDF (x : ℝ) : ℝ :=
  Real.exp (-0.5 * x * x) / Real.sqrt (2 * Real.pi)

/-- Cumulative normal distribution via the bounded rational (Cody-style)
approximation used by the source: a degree-5 polynomial in
`t = 1/(1 + p·|x|)` times the normal pdf, reflected for negative `x`. -/
noncomputable def cumulativeNormalDistribution (x : ℝ) : ℝ :=
  let a1 : ℝ := 0.31938153
  let a2 : ℝ := -0.356563782
  let a3 : ℝ := 1.781477937
  let a4 : ℝ := -1.821255978
  let a5 : ℝ := 1.330274429
  let pc : ℝ := 0.2316419
  let absX := |x|
  let t := 1.0 / (1.0 + pc * absX)
  let poly := t * (a1 + t * (a2 + t * (a3 + t * (a4 + t * a5))))
  let pdf := Real.exp (-0.5 * absX * absX) / Real.sqrt (2 * Real.pi)
  let cdf := 1.0 - poly * pdf
  if 0 ≤ x then cdf else 1.0 - cdf

/-- Stand-in for the IEEE `Infinity` sentinel the source returns from `d1`/`d2`
in the degenerate branch `T ≤ 0 ∨ σ ≤ 0`.  The price and Greek formulas
special-case `T ≤ 0` before calling `d1`/`d2`, so this value is never
dereferenced by any claim; any fixed real works here. -/
noncomputable def infinitySentinel : ℝ := 2 ^ (1024 : ℕ)

/-- The `d1` parameter of the Black-Scholes formula. -/
noncomputable def d1 (S K T r sigma : ℝ) : ℝ :=
  if T ≤ 0 ∨ sigma ≤ 0 then
    (if K ≤ S then infinitySentinel else -infinitySentinel)
  else
    (Real.log (S / K) + (r + 0.5 * sigma * sigma) * T) / (sigma * Real.sqrt T)

/-- The parameter `d2 = d1 - σ√T`. -/
noncomputable def d2 (S K T r sigma : ℝ) : ℝ :=
  if T ≤ 0 ∨ sigma ≤ 0 then
    (if K ≤ S then infinitySentinel else -infinitySentinel)
  else
    d1 S K T r sigma - sigma * Real.sqrt T

/-- European call price: intrinsic value at or past expiry, otherwise
`S·N(d1) - K·e^{-rT}·N(d2)`. -/
noncomputable def callPrice (S K T r sigma : ℝ) : ℝ :=
  if T ≤ 0 then
    max 0 (S - K)
  else
    S * cumulativeNormalDistribution (d1 S K T r sigma) -
      K * Real.exp (-r * T) * cumulativeNormalDistribution (d2 S K T r sigma)

/-- European put price: intrinsic value at or past expiry, otherwise
`K·e^{-rT}·N(-d2) - S·N(-d1)`. -/
noncomputable def putPrice (S K T r sigma : ℝ) : ℝ :=
  if T ≤ 0 then
    max 0 (K - S)
  else
    K * Real.exp (-r * T) * cumulativeNormalDistribution (-(d2 S K T r sigma)) -
      S * cumulativeNormalDistribution (-(d1 S K T r sigma))

/-- Convenience dispatcher on the option kind. -/
noncomputable def optionPrice (isCall : Bool) (S K T r sigma : ℝ) : ℝ :=
  if isCall then callPrice S K T r sigma else putPrice S K T r sigma

/-- Convert days to years. -/
noncomputable def daysToYears (days : ℝ) : ℝ := days / 365

/-! ## PayoffEngine — per-position PnL -/

/-- Quote-currency PnL of one position at expiry:
`(intrinsic - premium) * direction * quantity`. -/
noncomputable def calculatePositionPnl (position : OptionPosition)
    (underlyingPrice : ℝ) : ℝ :=
  let intrinsicValue : ℝ :=
    match position.optionType with
    | .call => max 0 (underlyingPrice - (position.strike : ℝ))
    | .put => max 0 ((position.strike : ℝ) - underlyingPrice)
  let pnlPerContract :=
    (intrinsicValue - (position.premium : ℝ)) * ((directionMultiplier position.direction : ℚ) : ℝ)
  pnlPerContract * (position.quantity : ℝ)

/-- Quote-currency PnL of one position with time value: the intrinsic value is
replaced by the Black-Scholes price at `daysToExpiry / 365` years. -/
noncomputable def calculatePositionPnlWithTimeValue (position : OptionPosition)
    (underlyingPrice daysToExpiry volatility riskFreeRate : ℝ) : ℝ :=
  let isCall : Bool := match position.optionType with | .call => true | .put => false
  let T := daysToYears daysToExpiry
  let currentValue :=
    optionPrice isCall underlyingPrice (position.strike : ℝ) T riskFreeRate volatility
  let pnlPerContract :=
    (currentValue - (position.premium : ℝ)) * ((directionMultiplier position.direction : ℚ) : ℝ)
  pnlPerContract * (position.quantity : ℝ)

/-- Underlying-currency ("BTC-settled") PnL of one position at expiry.
Intrinsic value is a fraction of one unit of underlying per contract;
division-by-zero at `S ≤ 0` is special-cased exactly as in the source
(call collapses to `-premium`, put uses the `strike / 1` finite floor). -/
def calculatePositionPnlBtc (position : OptionPosition) (underlyingPrice : ℚ) : ℚ :=
  let premiumInBtc := position.premiumBtc.getD
    (if 0 < position.btcPriceAtEntry then position.premium / position.btcPriceAtEntry else 0)
  if underlyingPrice ≤ 0 then
    match position.optionType with
    | .call =>
      -premiumInBtc * directionMultiplier position.direction * position.quantity
    | .put =>
      let maxPutValue := position.strike / 1
      (maxPutValue - premiumInBtc) * directionMultiplier position.direction * position.quantity
  else
    let intrinsicValueBtc : ℚ :=
      match position.optionType with
      | .call => max 0 (1 - position.strike / underlyingPrice)
      | .put => max 0 (position.strike / underlyingPrice - 1)
    (intrinsicValueBtc - premiumInBtc) * directionMultiplier position.direction *
      position.quantity

/-- Premium in underlying units exactly as claim C4 words it: the stored
underlying-currency premium when present, otherwise the quote-currency premium
divided by the underlying price recorded at entry. -/
def premiumInUnderlyingSpec (position : OptionPosition) : ℚ :=
  position.premiumBtc.getD (position.premium / position.btcPriceAtEntry)

/-! ## ExposureClassifier -/

/-- A theoretical max-profit / max-loss value: a finite number or the
`'unlimited'` marker. -/
inductive TheoreticalPL
  | unlimited
  | val (x : ℚ)
deriving DecidableEq, Repr

/-- Net call exposure: running sum over call positions of
`quantity * direction`. -/
def netCallExposure (positions : List OptionPosition) : ℚ :=
  positions.foldl
    (fun acc pos =>
      if pos.optionType = OptionType.call then
        acc + pos.quantity * directionMultiplier pos.direction
      else acc) 0

/-- Net call exposure as claim C5 words it: the sum, over the call positions,
of `quantity * sign(direction)`. -/
def netCallExposureSpec (positions : List OptionPosition) : ℚ :=
  ((positions.filter fun pos => decide (pos.optionType = OptionType.call)).map
    (fun pos => pos.quantity * directionMultiplier pos.direction)).sum

/-- Bounded (max profit, max loss) accumulators of the quote-currency
classifier: long positions add `premium·quantity` to max loss (plus
`(strike-premium)·quantity` to max profit for puts); short positions mirror
this. -/
def boundedMaxima (positions : List OptionPosition) : ℚ × ℚ :=
  positions.foldl
    (fun acc pos =>
      match pos.direction with
      | .long =>
        (if pos.optionType = OptionType.put then
           acc.1 + (pos.strike - pos.premium) * pos.quantity
         else acc.1,
         acc.2 + pos.premium * pos.quantity)
      | .short =>
        (acc.1 + pos.premium * pos.quantity,
         if pos.optionType = OptionType.put then
           acc.2 + (pos.strike - pos.premium) * pos.quantity
         else acc.2))
    (0, 0)

/-- Quote-currency theoretical (max profit, max loss): unlimited on the side
determined by the sign of the net call exposure, the bounded accumulators
otherwise (with max loss negated). -/
def calculateTheoreticalMaxProfitLoss (positions : List OptionPosition) :
    TheoreticalPL × TheoreticalPL :=
  if positions.length = 0 then (.val 0, .val 0)
  else
    let nce := netCallExposure positions
    let bounds := boundedMaxima positions
    (if 0 < nce then .unlimited else .val bounds.1,
     if nce < 0 then .unlimited else .val (-bounds.2))

/-! ## RangeSolver -/

/-- Minimum of a list, as `Math.min(...args)` over a non-empty argument list.
The `[]` case is never reached by `calculatePriceRange`, whose argument always
contains the current price. -/
def listMin : List ℚ → ℚ
  | [] => 0
  | h :: t => t.foldl min h

/-- Maximum of a list, as `Math.max(...args)` over a non-empty argument list. -/
def listMax : List ℚ → ℚ
  | [] => 0
  | h :: t => t.foldl max h

/-- Default sampling domain.  With no positions: `±30%` around the current
price.  Otherwise: strikes plus current price, `||`-defaulted span, padding
`max(span·0.3, price·0.1)`, lower bound clamped at `0`.  (The source's unused
`minStrike`/`maxStrike` locals are omitted.) -/
def calculatePriceRange (positions : List OptionPosition) (currentPrice : ℚ) : ℚ × ℚ :=
  if positions.length = 0 then
    (currentPrice * 0.7, currentPrice * 1.3)
  else
    let strikes := positions.map (fun pos => pos.strike)
    let allPrices := strikes ++ [currentPrice]
    let minPrice := listMin allPrices
    let maxPrice := listMax allPrices
    let range := if maxPrice - minPrice = 0 then currentPrice * 0.3 else maxPrice - minPrice
    let padding := max (range * 0.3) (currentPrice * 0.1)
    (max 0 (minPrice - padding), maxPrice + padding)

/-- Breakeven extraction: scan consecutive sample pairs; on a (non-strict)
sign change, interpolate the crossing weighted by absolute PnL magnitudes,
guarded by `totalDiff > 0`. -/
def findBreakevens : List PayoffPoint → List ℚ
  | prev :: curr :: rest =>
    let tail := findBreakevens (curr :: rest)
    if (prev.pnl ≤ 0 ∧ 0 ≤ curr.pnl) ∨ (0 ≤ prev.pnl ∧ curr.pnl ≤ 0) then
      let totalDiff := |prev.pnl| + |curr.pnl|
      if 0 < totalDiff then
        let ratio := |prev.pnl| / totalDiff
        (prev.price + (curr.price - prev.price) * ratio) :: tail
      else tail
    else tail
  | _ => []

/-- Breakeven scan exactly as claim C6 words it: *whenever* consecutive
samples' signs are non-strictly opposite, emit the interpolated crossing —
with no guard on the zero denominator. -/
def findBreakevensClaimed : List PayoffPoint → List ℚ
  | prev :: curr :: rest =>
    let tail := findBreakevensClaimed (curr :: rest)
    if (prev.pnl ≤ 0 ∧ 0 ≤ curr.pnl) ∨ (0 ≤ prev.pnl ∧ curr.pnl ≤ 0) then
      (prev.price + (curr.price - prev.price) * (|prev.pnl| / (|prev.pnl| + |curr.pnl|))) :: tail
    else tail
  | _ => []

/-- Breakeven scan as claim C6 must be amended: emit the interpolated crossing
whenever the signs are non-strictly opposite *and at least one of the two PnL
values is nonzero* (a pair of exact zeros emits nothing). -/
def findBreakevensAmended : List PayoffPoint → List ℚ
  | prev :: curr :: rest =>
    let tail := findBreakevensAmended (curr :: rest)
    if ((prev.pnl ≤ 0 ∧ 0 ≤ curr.pnl) ∨ (0 ≤ prev.pnl ∧ curr.pnl ≤ 0)) ∧
        (prev.pnl ≠ 0 ∨ curr.pnl ≠ 0) then
      (prev.price + (curr.price - prev.price) * (|prev.pnl| / (|prev.pnl| + |curr.pnl|))) :: tail
    else tail
  | _ => []

/-! ## ViewportController — d3 chart helpers -/

/-- Does the visible range get within `threshold` of the dataset's span from
either edge of the generated dataset?  Ranges are `(min, max)` pairs. -/
def needsRangeExtension (visibleRange dataRange : ℚ × ℚ) (threshold : ℚ) : Bool :=
  let dataSpan := dataRange.2 - dataRange.1
  decide (visibleRange.1 < dataRange.1 + dataSpan * threshold) ||
    decide (dataRange.2 - dataSpan * threshold < visibleRange.2)

/-- Extend the visible range by `buffer` of its span on each side, clamping
the lower bound at `0`. -/
def calculateExtendedRange (visibleRange : ℚ × ℚ) (buffer : ℚ) : ℚ × ℚ :=
  let span := visibleRange.2 - visibleRange.1
  (max 0 (visibleRange.1 - span * buffer), visibleRange.2 + span * buffer)

/-- Generation-domain computation of `checkAndExtendRange` when an extension
is requested: `calculateExtendedRange` with the caller's `0.15` buffer, then
the constraint to `[0, spot*5]`. -/
def checkAndExtendRangeDomain (spot : ℚ) (visibleRange : ℚ × ℚ) : ℚ × ℚ :=
  let extendedRange := calculateExtendedRange visibleRange 0.15
  (max 0 extendedRange.1, min (spot * 5) extendedRange.2)

/-! ## Position store -/

/-- JS `Math.round` rounds half toward `+∞`, i.e. `⌊x + 1/2⌋`; `roundQuantity`
rounds to `decimals` decimal places. -/
def roundQuantity (n : ℚ) (decimals : ℕ) : ℚ :=
  (⌊n * 10 ^ decimals + 1 / 2⌋ : ℚ) / 10 ^ decimals

/-- The store's quantity update: reject quantities outside `[0.1, 1000]`,
round to one decimal, and map the new quantity onto the position with the
matching id. -/
def updatePositionQuantity (positions : List OptionPosition) (id : String)
    (quantity : ℚ) : List OptionPosition :=
  if quantity < 0.1 ∨ 1000 < quantity then positions
  else
    let rounded := roundQuantity quantity 1
    positions.map fun p =>
      if p.id = id then
        ⟨p.id, p.optionType, p.direction, p.strike, p.premium, rounded, p.expiryDate,
          p.premiumBtc, p.btcPriceAtEntry, p.denominationAtEntry, p.enabled⟩
      else p

/-! ## Concrete inputs used by witnesses and counterexamples -/

/-- A long call: strike 100, premium 5 (entered in quote currency), quantity 2,
underlying price 50 at entry. -/
def sampleLongCall : OptionPosition :=
  ⟨"lc", OptionType.call, Direction.long, 100, 5, 2, 0, none, 50, Denomination.usd, true⟩

/-- A stored position used by the store-update claims. -/
def storedPosition : OptionPosition :=
  ⟨"a", OptionType.call, Direction.long, 100, 5, 1, 0, none, 100, Denomination.usd, true⟩

end Kondor

namespace Kondor

/-! ## Claim C1 -/

/-- Claim C1: whenever time-to-expiry `T ≤ 0`, the pricer returns the intrinsic
value — `max 0 (S-K)` for a call and `max 0 (K-S)` for a put — and the result
does not depend on `σ` or `r`; in particular
`callPrice 110 100 0 r σ = 10`, `callPrice 90 100 0 r σ = 0`,
`putPrice 90 100 0 r σ = 10`, `putPrice 110 100 0 r σ = 0` for all `r`, `σ`. -/
theorem claim_C1_expiry_intrinsic :
    (∀ S K T r sigma : ℝ, 0 < K → T ≤ 0 →
      callPrice S K T r sigma = max 0 (S - K) ∧
      putPrice S K T r sigma = max 0 (K - S)) ∧
    (∀ r sigma : ℝ,
      callPrice 110 100 0 r sigma = 10 ∧ callPrice 90 100 0 r sigma = 0 ∧
      putPrice 90 100 0 r sigma = 10 ∧ putPrice 110 100 0 r sigma = 0) := by
  have hc : ∀ S K T r sigma : ℝ, T ≤ 0 → callPrice S K T r sigma = max 0 (S - K) := by
    intro S K T r sigma hT
    simp [callPrice, if_pos hT]
  have hp : ∀ S K T r sigma : ℝ, T ≤ 0 → putPrice S K T r sigma = max 0 (K - S) := by
    intro S K T r sigma hT
    simp [putPrice, if_pos hT]
  refine ⟨fun S K T r sigma _ hT => ⟨hc S K T r sigma hT, hp S K T r sigma hT⟩, ?_⟩
  intro r sigma
  refine ⟨?_, ?_, ?_, ?_⟩
  · rw [hc _ _ _ _ _ le_rfl]; norm_num
  · rw [hc _ _ _ _ _ le_rfl]; norm_num
  · rw [hp _ _ _ _ _ le_rfl]; norm_num
  · rw [hp _ _ _ _ _ le_rfl]; norm_num

/-- Witness for C1 at a concrete input. -/
theorem claim_C1_expiry_intrinsic_witness :
    callPrice 110 100 0 0.05 0.8 = max 0 (110 - 100) :=
  (claim_C1_expiry_intrinsic.1 110 100 0 0.05 0.8 (by norm_num) le_rfl).1

/-! ## Claim C2 -/

/-- The CDF approximation is antisymmetric, `cdf x + cdf (-x) = 1`, at every
nonzero `x`: the negative branch is defined as the reflection of the positive
one.  (At `x = 0` both calls take the nonnegative branch and the identity
would need `cdf 0 = 1/2` exactly, which the rational approximation misses.) -/
lemma cnd_add_neg_eq_one (x : ℝ) (hx : x ≠ 0) :
    cumulativeNormalDistribution x + cumulativeNormalDistribution (-x) = 1 := by
  simp only [cumulativeNormalDistribution, abs_neg]
  rcases hx.lt_or_lt with h | h
  · rw [if_neg (by linarith), if_pos (by linarith)]
    ring
  · rw [if_pos (by linarith), if_neg (by linarith)]
    ring

/-- Claim C2 counterexample: at `S = K = 1`, `T = 1`, `r = -1/2`, `σ = 1` the
parameter `d1` is exactly `0`, and exact put-call parity fails: the code's
`callPrice - putPrice` differs from `S - K·e^{-rT}` because
`cdf 0 = 1 - 1.253314136/√(2π)` is not exactly `1/2` (if it were, `π` would
be rational). -/
theorem claim_C2_counterexample :
    callPrice 1 1 1 (-(1/2)) 1 - putPrice 1 1 1 (-(1/2)) 1 ≠
      1 - 1 * Real.exp (-(-(1/2)) * 1) := by
  have hnt : ¬(1:ℝ) ≤ 0 := by norm_num
  have hd1 : d1 1 1 1 (-(1/2)) 1 = 0 := by
    simp only [d1, if_neg (by norm_num : ¬((1:ℝ) ≤ 0 ∨ (1:ℝ) ≤ 0))]
    norm_num [Real.log_one, Real.sqrt_one]
  have hd2 : d2 1 1 1 (-(1/2)) 1 = -1 := by
    simp only [d2, if_neg (by norm_num : ¬((1:ℝ) ≤ 0 ∨ (1:ℝ) ≤ 0)), hd1]
    norm_num [Real.sqrt_one]
  have hcnd0 : cumulativeNormalDistribution 0 =
      1 - (1253314136 / 1000000000 : ℝ) / Real.sqrt (2 * Real.pi) := by
    simp only [cumulativeNormalDistribution, abs_zero, if_pos (le_refl (0:ℝ))]
    norm_num [Real.exp_zero]
    ring
  simp only [callPrice, putPrice, if_neg hnt, hd1, hd2, neg_neg, neg_zero]
  intro h
  have hsum := cnd_add_neg_eq_one 1 one_ne_zero
  have h2 : (2:ℝ) * cumulativeNormalDistribution 0 = 1 := by
    linear_combination h + Real.exp ((1:ℝ) / 2 * 1) * hsum
  rw [hcnd0] at h2
  have hspos : (0:ℝ) < Real.sqrt (2 * Real.pi) :=
    Real.sqrt_pos.mpr (by positivity)
  have hq : (1253314136 / 1000000000 : ℝ) / Real.sqrt (2 * Real.pi) = 1 / 2 := by
    linarith
  rw [div_eq_iff (ne_of_gt hspos)] at hq
  have hs : Real.sqrt (2 * Real.pi) = 2 * (1253314136 / 1000000000 : ℝ) := by
    linarith
  have h2pi : (2:ℝ) * Real.pi = (2 * (1253314136 / 1000000000 : ℝ)) ^ 2 := by
    rw [← hs]
    exact (Real.sq_sqrt (by positivity)).symm
  norm_num at h2pi
  have hπq : Real.pi = ((3141592646994852992 / 1000000000000000000 : ℚ) : ℝ) := by
    push_cast
    linarith
  exact (irrational_pi.ne_rat _) hπq

/-- Claim C2 (amended): for all `S, K > 0`, `T > 0`, `σ > 0` and any `r` such
that the code's `d1` and `d2` values are nonzero, exact put-call parity holds:
`callPrice - putPrice = S - K·e^{-rT}`, because the CDF approximation
satisfies `cdf x + cdf (-x) = 1` at every nonzero `x`.  (When `d1` or `d2` is
exactly `0` the identity fails by a fixed error of about `1e-9`, since
`cdf 0 ≠ 1/2` exactly; parity then holds only within numerical tolerance.) -/
theorem claim_C2_put_call_parity_amended (S K T r sigma : ℝ)
    (hS : 0 < S) (hK : 0 < K) (hT : 0 < T) (hsigma : 0 < sigma)
    (hd1 : d1 S K T r sigma ≠ 0) (hd2 : d2 S K T r sigma ≠ 0) :
    callPrice S K T r sigma - putPrice S K T r sigma = S - K * Real.exp (-r * T) := by
  have h1 := cnd_add_neg_eq_one _ hd1
  have h2 := cnd_add_neg_eq_one _ hd2
  simp only [callPrice, putPrice, if_neg (not_le.mpr hT)]
  linear_combination S * h1 - K * Real.exp (-r * T) * h2

/-- Witness for the amended C2 at `S = K = 1`, `T = 1`, `r = 0`, `σ = 1`,
where `d1 = 1/2` and `d2 = -1/2` are nonzero. -/
theorem claim_C2_put_call_parity_amended_witness :
    callPrice 1 1 1 0 1 - putPrice 1 1 1 0 1 = 1 - 1 * Real.exp (-(0:ℝ) * 1) :=
  claim_C2_put_call_parity_amended 1 1 1 0 1
    (by norm_num) (by norm_num) (by norm_num) (by norm_num)
    (by
      simp only [d1, if_neg (by norm_num : ¬((1:ℝ) ≤ 0 ∨ (1:ℝ) ≤ 0))]
      norm_num [Real.log_one, Real.sqrt_one])
    (by
      simp only [d2, d1, if_neg (by norm_num : ¬((1:ℝ) ≤ 0 ∨ (1:ℝ) ≤ 0))]
      norm_num [Real.log_one, Real.sqrt_one])

/-! ## Claim C3 -/

/-- Claim C3: at exactly `daysToExpiry = 0` the time-valued quote-currency
per-position PnL (which converts days to years by dividing by 365 and uses
the Black-Scholes price) coincides with the at-expiry PnL, for every
position, every underlying price, and regardless of volatility and rate. -/
theorem claim_C3_time_value_at_zero_days (position : OptionPosition)
    (underlyingPrice volatility riskFreeRate : ℝ) :
    calculatePositionPnlWithTimeValue position underlyingPrice 0 volatility riskFreeRate =
      calculatePositionPnl position underlyingPrice := by
  have hT : daysToYears 0 = (0:ℝ) := by
    simp [daysToYears]
  simp only [calculatePositionPnlWithTimeValue, calculatePositionPnl, hT, optionPrice]
  cases position.optionType with
  | call => simp [callPrice, if_pos (le_refl (0:ℝ))]
  | put => simp [putPrice, if_pos (le_refl (0:ℝ))]

/-! ## Claim C4 -/

/-- Claim C4: for entry price `> 0`, the underlying-currency at-expiry PnL is
`(intrinsic - premiumInUnderlying) * sign(direction) * quantity` with call
intrinsic `max 0 (1 - K/S)` and put intrinsic `max 0 (K/S - 1)` whenever
`S > 0`; for `S ≤ 0` the call payoff is `-premiumInUnderlying * sign * qty`
and the put payoff substitutes the nominal minimum price 1 for `S` in `K/S`.
`premiumInUnderlying` is the stored underlying premium when present, else the
quote premium divided by the entry price. -/
theorem claim_C4_btc_payoff (position : OptionPosition) (underlyingPrice : ℚ)
    (hentry : 0 < position.btcPriceAtEntry) :
    (0 < underlyingPrice →
      calculatePositionPnlBtc position underlyingPrice =
        ((match position.optionType with
          | OptionType.call => max 0 (1 - position.strike / underlyingPrice)
          | OptionType.put => max 0 (position.strike / underlyingPrice - 1)) -
            premiumInUnderlyingSpec position) *
          directionMultiplier position.direction * position.quantity) ∧
    (underlyingPrice ≤ 0 →
      calculatePositionPnlBtc position underlyingPrice =
        (match position.optionType with
         | OptionType.call =>
            -premiumInUnderlyingSpec position * directionMultiplier position.direction *
              position.quantity
         | OptionType.put =>
            (position.strike / 1 - premiumInUnderlyingSpec position) *
              directionMultiplier position.direction * position.quantity)) := by
  have hprem :
      position.premiumBtc.getD
        (if 0 < position.btcPriceAtEntry then position.premium / position.btcPriceAtEntry
         else 0) = premiumInUnderlyingSpec position := by
    rw [premiumInUnderlyingSpec]
    cases position.premiumBtc with
    | none => simp [if_pos hentry]
    | some b => rfl
  constructor
  · intro hpos
    simp only [calculatePositionPnlBtc, hprem, if_neg (not_le.mpr hpos)]
  · intro hle
    simp only [calculatePositionPnlBtc, hprem, if_pos hle]

/-- Witness for C4: a long call, strike 100 and quote premium 5 entered at
price 50, evaluated at `S = 200` — intrinsic `1/2` BTC, premium `1/10` BTC,
PnL `(1/2 - 1/10) * 2 = 4/5`. -/
theorem claim_C4_btc_payoff_witness :
    calculatePositionPnlBtc sampleLongCall 200 = 4 / 5 :=
  (((claim_C4_btc_payoff sampleLongCall 200 (by norm_num [sampleLongCall])).1
      (by norm_num)).trans
    (by
      simp [sampleLongCall, premiumInUnderlyingSpec, directionMultiplier, max_def]
      norm_num))

/-! ## Claim C5 -/

/-- The classifier's running fold computes the sum over call positions of
`quantity * sign(direction)` described by the spec. -/
lemma netCallExposure_eq_spec (positions : List OptionPosition) :
    netCallExposure positions = netCallExposureSpec positions := by
  suffices h : ∀ (l : List OptionPosition) (acc : ℚ),
      l.foldl
        (fun acc pos =>
          if pos.optionType = OptionType.call then
            acc + pos.quantity * directionMultiplier pos.direction
          else acc) acc =
      acc + netCallExposureSpec l by
    simpa [netCallExposure] using h positions 0
  intro l
  induction l with
  | nil => intro acc; simp [netCallExposureSpec]
  | cons p t ih =>
    intro acc
    simp only [List.foldl_cons]
    by_cases hc : p.optionType = OptionType.call
    · rw [if_pos hc, ih]
      have hsp : netCallExposureSpec (p :: t) =
          p.quantity * directionMultiplier p.direction + netCallExposureSpec t := by
        simp [netCallExposureSpec, List.filter_cons, hc]
      rw [hsp]; ring
    · rw [if_neg hc, ih]
      have hsp : netCallExposureSpec (p :: t) = netCallExposureSpec t := by
        simp [netCallExposureSpec, List.filter_cons, hc]
      rw [hsp]

/-- Claim C5: on a non-empty quote-currency position list, max profit is the
`'unlimited'` marker exactly when the net call exposure
`Σ_{calls} quantity·sign(direction)` is positive, and max loss is unlimited
exactly when it is negative; a single long call yields
`(unlimited, -premium·quantity)`. -/
theorem claim_C5_exposure_classifier :
    (∀ positions : List OptionPosition, positions ≠ [] →
      ((calculateTheoreticalMaxProfitLoss positions).1 = TheoreticalPL.unlimited ↔
        0 < netCallExposureSpec positions) ∧
      ((calculateTheoreticalMaxProfitLoss positions).2 = TheoreticalPL.unlimited ↔
        netCallExposureSpec positions < 0)) ∧
    (∀ pos : OptionPosition, pos.optionType = OptionType.call →
      pos.direction = Direction.long → 0 < pos.quantity →
      calculateTheoreticalMaxProfitLoss [pos] =
        (TheoreticalPL.unlimited, TheoreticalPL.val (-(pos.premium * pos.quantity)))) := by
  constructor
  · intro positions hne
    have hlen : ¬positions.length = 0 := by
      simpa [List.length_eq_zero] using hne
    simp only [calculateTheoreticalMaxProfitLoss, if_neg hlen, netCallExposure_eq_spec]
    constructor
    · split_ifs with h <;> simp [h]
    · split_ifs with h <;> simp [h]
  · intro pos hcall hlong hq
    have h1 : netCallExposure [pos] = pos.quantity := by
      simp [netCallExposure, hcall, hlong, directionMultiplier]
    have h2 : boundedMaxima [pos] = (0, pos.premium * pos.quantity) := by
      simp [boundedMaxima, hlong, hcall]
    simp [calculateTheoreticalMaxProfitLoss, h1, h2, hq, not_lt.mpr (le_of_lt hq)]

/-- Witness for C5 on the concrete long call. -/
theorem claim_C5_exposure_classifier_witness :
    calculateTheoreticalMaxProfitLoss [sampleLongCall] =
      (TheoreticalPL.unlimited,
       TheoreticalPL.val (-(sampleLongCall.premium * sampleLongCall.quantity))) :=
  claim_C5_exposure_classifier.2 sampleLongCall rfl rfl (by norm_num [sampleLongCall])

/-! ## Claim C6 -/

/-- Claim C6 counterexample: on the pair `(100, 0), (101, 0)` the sign
condition of the claimed scan holds, so the claimed rule emits a crossing,
but the code's `totalDiff > 0` guard suppresses it: `findBreakevens` returns
`[]` while the scan exactly as claimed returns `[100]`. -/
theorem claim_C6_counterexample :
    findBreakevens [⟨100, 0⟩, ⟨101, 0⟩] = [] ∧
    findBreakevensClaimed [⟨100, 0⟩, ⟨101, 0⟩] = [100] := by
  constructor
  · simp [findBreakevens]
  · norm_num [findBreakevensClaimed]

/-- Claim C6 (amended): the breakeven extraction scans consecutive pairs in
order and emits the magnitude-weighted interpolated crossing whenever the two
PnL values have non-strictly opposite signs *and at least one of them is
nonzero* (a pair of two exact zeros emits nothing); on the points
`(100, -2)` and `(101, 3)` it yields `100.4`. -/
theorem claim_C6_breakevens_amended :
    (∀ points : List PayoffPoint, findBreakevens points = findBreakevensAmended points) ∧
    findBreakevens [⟨100, -2⟩, ⟨101, 3⟩] = [100.4] := by
  constructor
  · intro points
    induction points with
    | nil => rfl
    | cons p1 rest ih =>
      cases rest with
      | nil => rfl
      | cons p2 rest2 =>
        have htot : (0 < |p1.pnl| + |p2.pnl|) ↔ (p1.pnl ≠ 0 ∨ p2.pnl ≠ 0) := by
          constructor
          · intro h
            by_contra hcon
            push_neg at hcon
            rw [hcon.1, hcon.2] at h
            simp at h
          · intro h
            rcases h with h | h
            · exact add_pos_of_pos_of_nonneg (abs_pos.mpr h) (abs_nonneg _)
            · exact add_pos_of_nonneg_of_pos (abs_nonneg _) (abs_pos.mpr h)
        simp only [findBreakevens, findBreakevensAmended]
        rw [ih]
        by_cases hA : (p1.pnl ≤ 0 ∧ 0 ≤ p2.pnl) ∨ (0 ≤ p1.pnl ∧ p2.pnl ≤ 0)
        · by_cases hB : 0 < |p1.pnl| + |p2.pnl|
          · rw [if_pos hA, if_pos hB, if_pos ⟨hA, htot.mp hB⟩]
          · rw [if_pos hA, if_neg hB, if_neg fun hcon => hB (htot.mpr hcon.2)]
        · rw [if_neg hA, if_neg fun hcon => hA hcon.1]
  · norm_num [findBreakevens, abs_of_nonpos, abs_of_nonneg]

/-! ## Claim C10 -/

/-- Claim C10: breakeven extraction is division-safe and local — a pair of
exactly-zero PnL samples emits no crossing (the `totalDiff > 0` guard), and
on a price-sorted curve every emitted breakeven lies within the closed price
interval of the consecutive pair that produced it. -/
theorem claim_C10_breakeven_safety :
    (∀ (x y : ℚ) (rest : List PayoffPoint),
      findBreakevens (⟨x, 0⟩ :: ⟨y, 0⟩ :: rest) = findBreakevens (⟨y, 0⟩ :: rest)) ∧
    (∀ points : List PayoffPoint,
      List.Chain' (fun a b => a.price ≤ b.price) points →
      ∀ b ∈ findBreakevens points,
        ∃ i, ∃ h : i + 1 < points.length,
          (points.get ⟨i, Nat.lt_of_succ_lt h⟩).price ≤ b ∧
          b ≤ (points.get ⟨i + 1, h⟩).price) := by
  constructor
  · intro x y rest
    simp [findBreakevens]
  · intro points
    induction points with
    | nil =>
      intro _ b hb
      simp [findBreakevens] at hb
    | cons p1 rest ih =>
      cases rest with
      | nil =>
        intro _ b hb
        simp [findBreakevens] at hb
      | cons p2 rest2 =>
        intro hchain b hb
        have h12 : p1.price ≤ p2.price := (List.chain'_cons.mp hchain).1
        have hchain2 : List.Chain' (fun a b => a.price ≤ b.price) (p2 :: rest2) :=
          (List.chain'_cons.mp hchain).2
        simp only [findBreakevens] at hb
        by_cases hA : (p1.pnl ≤ 0 ∧ 0 ≤ p2.pnl) ∨ (0 ≤ p1.pnl ∧ p2.pnl ≤ 0)
        · rw [if_pos hA] at hb
          by_cases hB : 0 < |p1.pnl| + |p2.pnl|
          · rw [if_pos hB] at hb
            rcases List.mem_cons.mp hb with hbe | hbt
            · refine ⟨0, Nat.succ_lt_succ (Nat.succ_pos _), ?_, ?_⟩
              · simp only [List.get]
                have hr0 : 0 ≤ |p1.pnl| / (|p1.pnl| + |p2.pnl|) :=
                  div_nonneg (abs_nonneg _) (le_of_lt hB)
                have hmul : 0 ≤ (p2.price - p1.price) * (|p1.pnl| / (|p1.pnl| + |p2.pnl|)) :=
                  mul_nonneg (sub_nonneg.mpr h12) hr0
                rw [hbe]
                linarith
              · simp only [List.get]
                have hr1 : |p1.pnl| / (|p1.pnl| + |p2.pnl|) ≤ 1 := by
                  rw [div_le_one hB]
                  exact le_add_of_nonneg_right (abs_nonneg _)
                have hmul : (p2.price - p1.price) * (|p1.pnl| / (|p1.pnl| + |p2.pnl|)) ≤
                    p2.price - p1.price :=
                  mul_le_of_le_one_right (sub_nonneg.mpr h12) hr1
                rw [hbe]
                linarith
            · rcases ih hchain2 b hbt with ⟨i, hi, hlow, hhigh⟩
              exact ⟨i + 1, Nat.succ_lt_succ hi, by simpa using hlow, by simpa using hhigh⟩
          · rw [if_neg hB] at hb
            rcases ih hchain2 b hb with ⟨i, hi, hlow, hhigh⟩
            exact ⟨i + 1, Nat.succ_lt_succ hi, by simpa using hlow, by simpa using hhigh⟩
        · rw [if_neg hA] at hb
          rcases ih hchain2 b hb with ⟨i, hi, hlow, hhigh⟩
          exact ⟨i + 1, Nat.succ_lt_succ hi, by simpa using hlow, by simpa using hhigh⟩

/-- Witness for C10 on the two-point curve `(100, -2), (101, 3)`, whose single
breakeven `100.4` lies in `[100, 101]`. -/
theorem claim_C10_breakeven_safety_witness :
    ∃ i, ∃ h : i + 1 < ([⟨100, -2⟩, ⟨101, 3⟩] : List PayoffPoint).length,
      (([⟨100, -2⟩, ⟨101, 3⟩] : List PayoffPoint).get ⟨i, Nat.lt_of_succ_lt h⟩).price ≤ 100.4 ∧
      (100.4 : ℚ) ≤ (([⟨100, -2⟩, ⟨101, 3⟩] : List PayoffPoint).get ⟨i + 1, h⟩).price :=
  claim_C10_breakeven_safety.2 [⟨100, -2⟩, ⟨101, 3⟩]
    (by norm_num [List.chain'_cons])
    100.4
    (by norm_num [findBreakevens, abs_of_nonpos, abs_of_nonneg])

/-! ## Claim C7 -/

lemma foldl_min_mem (t : List ℚ) : ∀ h : ℚ, t.foldl min h ∈ h :: t := by
  induction t with
  | nil => intro h; simp
  | cons a t ih =>
    intro h
    have hm := ih (min h a)
    simp only [List.foldl_cons]
    rcases List.mem_cons.mp hm with h1 | h1
    · rcases min_choice h a with h2 | h2
      · rw [h1, h2]; exact List.mem_cons_self _ _
      · rw [h1, h2]; exact List.mem_cons_of_mem _ (List.mem_cons_self _ _)
    · exact List.mem_cons_of_mem _ (List.mem_cons_of_mem _ h1)

lemma foldl_min_le (t : List ℚ) : ∀ (h x : ℚ), x ∈ h :: t → t.foldl min h ≤ x := by
  induction t with
  | nil =>
    intro h x hx
    simp only [List.foldl_nil]
    rcases List.mem_cons.mp hx with rfl | hx'
    · exact le_rfl
    · simp at hx'
  | cons a t ih =>
    intro h x hx
    simp only [List.foldl_cons]
    rcases List.mem_cons.mp hx with hxe | hx'
    · rw [hxe]
      exact le_trans (ih (min h a) (min h a) (List.mem_cons_self _ _)) (min_le_left _ _)
    · rcases List.mem_cons.mp hx' with hxe | hx''
      · rw [hxe]
        exact le_trans (ih (min h a) (min h a) (List.mem_cons_self _ _)) (min_le_right _ _)
      · exact ih (min h a) x (List.mem_cons_of_mem _ hx'')

lemma foldl_max_mem (t : List ℚ) : ∀ h : ℚ, t.foldl max h ∈ h :: t := by
  induction t with
  | nil => intro h; simp
  | cons a t ih =>
    intro h
    have hm := ih (max h a)
    simp only [List.foldl_cons]
    rcases List.mem_cons.mp hm with h1 | h1
    · rcases max_choice h a with h2 | h2
      · rw [h1, h2]; exact List.mem_cons_self _ _
      · rw [h1, h2]; exact List.mem_cons_of_mem _ (List.mem_cons_self _ _)
    · exact List.mem_cons_of_mem _ (List.mem_cons_of_mem _ h1)

lemma le_foldl_max (t : List ℚ) : ∀ (h x : ℚ), x ∈ h :: t → x ≤ t.foldl max h := by
  induction t with
  | nil =>
    intro h x hx
    simp only [List.foldl_nil]
    rcases List.mem_cons.mp hx with rfl | hx'
    · exact le_rfl
    · simp at hx'
  | cons a t ih =>
    intro h x hx
    simp only [List.foldl_cons]
    rcases List.mem_cons.mp hx with hxe | hx'
    · rw [hxe]
      exact le_trans (le_max_left _ _) (ih (max h a) (max h a) (List.mem_cons_self _ _))
    · rcases List.mem_cons.mp hx' with hxe | hx''
      · rw [hxe]
        exact le_trans (le_max_right _ _) (ih (max h a) (max h a) (List.mem_cons_self _ _))
      · exact ih (max h a) x (List.mem_cons_of_mem _ hx'')

/-- The value `listMin l` of a non-empty list is a member and a lower bound. -/
lemma listMin_spec (l : List ℚ) (hl : l ≠ []) :
    listMin l ∈ l ∧ ∀ x ∈ l, listMin l ≤ x := by
  obtain ⟨hd, tl, rfl⟩ := List.exists_cons_of_ne_nil hl
  exact ⟨foldl_min_mem tl hd, fun x hx => foldl_min_le tl hd x hx⟩

/-- The value `listMax l` of a non-empty list is a member and an upper bound. -/
lemma listMax_spec (l : List ℚ) (hl : l ≠ []) :
    listMax l ∈ l ∧ ∀ x ∈ l, x ≤ listMax l := by
  obtain ⟨hd, tl, rfl⟩ := List.exists_cons_of_ne_nil hl
  exact ⟨foldl_max_mem tl hd, fun x hx => le_foldl_max tl hd x hx⟩

/-- Claim C7: with no positions the sampling domain is
`[spot·0.7, spot·1.3]` (so `[70, 130]` at spot 100); with positions, writing
`m`/`M` for the minimum/maximum over all strikes together with the spot,
span `M - m` (or `spot·0.3` when all coincide) and padding
`max (span·0.3) (spot·0.1)`, the domain is `[max 0 (m - padding), M + padding]`. -/
theorem claim_C7_price_range :
    (∀ currentPrice : ℚ, 0 < currentPrice →
      calculatePriceRange [] currentPrice = (currentPrice * 0.7, currentPrice * 1.3)) ∧
    calculatePriceRange [] 100 = (70, 130) ∧
    (∀ (positions : List OptionPosition) (currentPrice : ℚ), 0 < currentPrice →
      positions ≠ [] →
      ∀ m M : ℚ,
        m ∈ currentPrice :: positions.map (fun pos => pos.strike) →
        (∀ x ∈ currentPrice :: positions.map (fun pos => pos.strike), m ≤ x) →
        M ∈ currentPrice :: positions.map (fun pos => pos.strike) →
        (∀ x ∈ currentPrice :: positions.map (fun pos => pos.strike), x ≤ M) →
        calculatePriceRange positions currentPrice =
          (max 0 (m - max ((if M = m then currentPrice * 0.3 else M - m) * 0.3)
              (currentPrice * 0.1)),
           M + max ((if M = m then currentPrice * 0.3 else M - m) * 0.3)
              (currentPrice * 0.1))) := by
  refine ⟨?_, ?_, ?_⟩
  · intro currentPrice _
    simp [calculatePriceRange]
  · norm_num [calculatePriceRange]
  · intro positions currentPrice _ hne m M hmMem hmLe hMMem hMLe
    have hlen : ¬positions.length = 0 := by
      simpa [List.length_eq_zero] using hne
    simp only [calculatePriceRange, if_neg hlen]
    have hmemiff : ∀ x : ℚ,
        x ∈ positions.map (fun pos => pos.strike) ++ [currentPrice] ↔
          x ∈ currentPrice :: positions.map (fun pos => pos.strike) := by
      intro x
      simp [List.mem_append, or_comm]
    have happne : positions.map (fun pos => pos.strike) ++ [currentPrice] ≠ [] := by
      simp
    have hminspec := listMin_spec _ happne
    have hmaxspec := listMax_spec _ happne
    have hmin : listMin (positions.map (fun pos => pos.strike) ++ [currentPrice]) = m :=
      le_antisymm (hminspec.2 m ((hmemiff m).mpr hmMem))
        (hmLe _ ((hmemiff _).mp hminspec.1))
    have hmax : listMax (positions.map (fun pos => pos.strike) ++ [currentPrice]) = M :=
      le_antisymm (hMLe _ ((hmemiff _).mp hmaxspec.1))
        (hmaxspec.2 M ((hmemiff M).mpr hMMem))
    rw [hmin, hmax]
    simp only [sub_eq_zero]

/-- Witness for C7: one position with strike 100 at spot 50 gives
`m = 50`, `M = 100`, span 50, padding `max 15 5 = 15`, domain `[35, 115]`. -/
theorem claim_C7_price_range_witness :
    calculatePriceRange [sampleLongCall] 50 = (35, 115) :=
  (claim_C7_price_range.2.2 [sampleLongCall] 50 (by norm_num) (by simp) 50 100
      (by simp [sampleLongCall])
      (by
        intro x hx
        simp [sampleLongCall] at hx
        rcases hx with rfl | rfl <;> norm_num)
      (by simp [sampleLongCall])
      (by
        intro x hx
        simp [sampleLongCall] at hx
        rcases hx with rfl | rfl <;> norm_num)).trans
    (by norm_num [max_def])

/-! ## Claim C8 -/

/-- Claim C8: at the caller's 25% threshold, an extension is requested exactly
when the visible domain's margin to either edge of the generated dataset is
less than 25% of the dataset's span; the requested generation domain is the
visible domain extended by 15% of the visible span on each side, clamped
below by `0` and above by `spot * 5`. -/
theorem claim_C8_range_extension_policy :
    (∀ visibleRange dataRange : ℚ × ℚ,
      needsRangeExtension visibleRange dataRange 0.25 = true ↔
        (visibleRange.1 < dataRange.1 + (dataRange.2 - dataRange.1) * 0.25 ∨
         dataRange.2 - (dataRange.2 - dataRange.1) * 0.25 < visibleRange.2)) ∧
    (∀ (spot : ℚ) (visibleRange : ℚ × ℚ),
      checkAndExtendRangeDomain spot visibleRange =
        (max 0 (visibleRange.1 - (visibleRange.2 - visibleRange.1) * 0.15),
         min (spot * 5) (visibleRange.2 + (visibleRange.2 - visibleRange.1) * 0.15))) := by
  constructor
  · intro visibleRange dataRange
    simp [needsRangeExtension]
  · intro spot visibleRange
    simp only [checkAndExtendRangeDomain, calculateExtendedRange, Prod.mk.injEq]
    constructor
    · rw [← max_assoc, max_self]
    · trivial

/-! ## Claim C9 -/

/-- Claim C9 counterexample: `updatePositionQuantity` does not set the
quantity to exactly the requested value — requesting `0.25` stores `0.3`
(the value is rounded to one decimal place). -/
theorem claim_C9_counterexample :
    updatePositionQuantity [storedPosition] "a" 0.25 ≠
      [⟨"a", OptionType.call, Direction.long, 100, 5, 0.25, 0, none, 100,
        Denomination.usd, true⟩] ∧
    updatePositionQuantity [storedPosition] "a" 0.25 =
      [⟨"a", OptionType.call, Direction.long, 100, 5, 0.3, 0, none, 100,
        Denomination.usd, true⟩] := by
  have hr : roundQuantity 0.25 1 = 0.3 := by
    rw [roundQuantity]
    have h3 : ((0.25:ℚ) * 10 ^ (1:ℕ) + 1 / 2) = 3 := by norm_num
    rw [h3, Int.floor_ofNat]
    norm_num
  have hupd : updatePositionQuantity [storedPosition] "a" 0.25 =
      [⟨"a", OptionType.call, Direction.long, 100, 5, 0.3, 0, none, 100,
        Denomination.usd, true⟩] := by
    rw [updatePositionQuantity, if_neg (by norm_num)]
    simp [storedPosition, hr]
  refine ⟨?_, hupd⟩
  rw [hupd]
  intro hcon
  simp only [List.cons.injEq, OptionPosition.mk.injEq] at hcon
  have : (0.3 : ℚ) = 0.25 := hcon.1.2.2.2.2.2.1
  norm_num at this

/-- Claim C9 (amended): for every requested quantity `q` with
`0.1 ≤ q ≤ 1000`, `updatePositionQuantity` sets the quantity of every
position with the matching id to `q` rounded to the nearest tenth
(`⌊10q + 1/2⌋ / 10`), leaving all its other fields and every other position
unchanged; a request outside `[0.1, 1000]` leaves the store unchanged. -/
theorem claim_C9_update_quantity_amended :
    (∀ (positions : List OptionPosition) (id : String) (quantity : ℚ),
      (quantity < 0.1 ∨ 1000 < quantity) →
      updatePositionQuantity positions id quantity = positions) ∧
    (∀ (positions : List OptionPosition) (id : String) (quantity : ℚ),
      0.1 ≤ quantity → quantity ≤ 1000 →
      updatePositionQuantity positions id quantity =
        positions.map fun p =>
          if p.id = id then
            ⟨p.id, p.optionType, p.direction, p.strike, p.premium,
              (⌊quantity * 10 + 1 / 2⌋ : ℚ) / 10, p.expiryDate, p.premiumBtc,
              p.btcPriceAtEntry, p.denominationAtEntry, p.enabled⟩
          else p) := by
  constructor
  · intro positions id quantity hq
    simp only [updatePositionQuantity, if_pos hq]
  · intro positions id quantity h1 h2
    have hng : ¬(quantity < 0.1 ∨ 1000 < quantity) := by
      push_neg
      exact ⟨h1, h2⟩
    simp only [updatePositionQuantity, if_neg hng]
    norm_num [roundQuantity]

/-- Witness for the amended C9: an in-range request (`q = 2`) stores exactly
`2` and leaves every other field untouched. -/
theorem claim_C9_update_quantity_amended_witness :
    updatePositionQuantity [storedPosition] "a" 2 =
      [⟨"a", OptionType.call, Direction.long, 100, 5, 2, 0, none, 100,
        Denomination.usd, true⟩] :=
  (claim_C9_update_quantity_amended.2 [storedPosition] "a" 2
      (by norm_num) (by norm_num)).trans
    (by
      have hf : ⌊(2 * 10 + 1 / 2 : ℚ)⌋ = 20 := by
        have h41 : (2 * 10 + 1 / 2 : ℚ) = ((41:ℤ) : ℚ) / ((2:ℕ) : ℚ) := by norm_num
        rw [h41, Rat.floor_intCast_div_natCast]
        decide
      simp [storedPosition, hf]
      norm_num)

end Kondor
